import Mathlib

/-!
Verification development for the heading/outline extraction core of
`process_pdfs.py`.  The extraction layer (PyMuPDF) is out of scope: the core
consumes a list of already-normalised `Line` values, an optional metadata
title, an abstract NFKC normaliser and the first page's height, and produces
a `DocumentOutline`.  Font sizes and coordinates are modelled by `ℚ`.
-/

namespace PdfOutline

/-- A contiguous run of text sharing one font (`line_spans_details` entries of
`extract_text_details`): text, font name, size rounded to two decimals,
style flags, bounding box. -/
structure Span where
  text : String
  font : String
  size : ℚ
  flags : ℕ
  bbox : ℚ × ℚ × ℚ × ℚ
deriving DecidableEq, Repr

/-- Union bounding box of a line: `(min_x0, min_y0, max_x1, max_y1)`. -/
structure Box where
  x0 : ℚ
  y0 : ℚ
  x1 : ℚ
  y1 : ℚ
deriving DecidableEq, Repr

/-- A retained semantic line as built by `extract_text_details`. -/
structure Line where
  text : String
  page : ℕ
  bbox : Box
  spans : List Span
  is_centered : Bool
  spacing_above : ℚ
  block_density : ℕ
deriving DecidableEq, Repr

/-- Source `is_bold(flags)`: `(flags & 4) != 0`. -/
def is_bold (flags : ℕ) : Bool := flags &&& 4 != 0

/-- Python `\s` on the characters relevant here (ASCII whitespace). -/
def pySpace (c : Char) : Bool :=
  c == ' ' || c == '\t' || c == '\n' || c == '\x0d' || c == '\x0b' || c == '\x0c'

/-- Greedy matcher for the regex fragment `\d*(\.\d+)*`, entered right after
the first digit of `\d+` has been consumed: it consumes the remaining
digits, then every group of a dot followed by one or more digits, and
returns the rest of the string.  Backtracking over the star can never extend
a match of the full pattern `^\d+(\.\d+)*(\.\s|\s|$)`: after giving a digit
or a group back, the remainder starts with a digit or with a dot followed by
a digit, which none of the three tail alternatives accepts, so this greedy
parse is faithful to `re.match`. -/
def numAfterDigit : List Char → List Char
  | [] => []
  | d :: cs =>
    if d.isDigit then numAfterDigit cs
    else if d = '.' then
      match cs with
      | [] => ['.']
      | e :: cs2 => if e.isDigit then numAfterDigit cs2 else '.' :: e :: cs2
    else d :: cs

/-- Tail of the numbering regex, `(\.\s|\s|$)`: end of string, a dot followed
by a whitespace character, or a whitespace character.  When the remainder
starts with a dot only the `\.\s` alternative can apply (a dot is not `\s`
and the string is non-empty), otherwise only `\s` or `$` can. -/
def numTailOK (l : List Char) : Bool :=
  match l with
  | [] => true
  | c :: rest =>
    if c = '.' then
      match rest with
      | [] => false
      | d :: _ => pySpace d
    else pySpace c

/-- Source `is_heading_numbered(text)`: `re.match(r'^\d+(\.\d+)*(\.\s|\s|$)', text)`. -/
def is_heading_numbered (s : String) : Bool :=
  match s.data with
  | [] => false
  | c :: cs => c.isDigit && numTailOK (numAfterDigit cs)

/-- The numbering pattern as claim C1 words it: one or more digit groups
separated by dots, the numeric prefix being followed by a dot, a space, or
the end of the string.  (Deliberately NOT the code's pattern: in the code a
lone trailing dot must itself be followed by whitespace.) -/
def numberedClaimed (s : String) : Bool :=
  match s.data with
  | [] => false
  | c :: cs =>
    c.isDigit &&
      (match numAfterDigit cs with
       | [] => true
       | d :: _ => d == '.' || pySpace d)

/-- The amended numbering condition: one or more digit groups separated by
dots, with the remainder after the maximal numeric prefix empty, starting
with a whitespace character, or starting with a dot immediately followed by
a whitespace character. -/
def numberedAmended (s : String) : Prop :=
  match s.data with
  | [] => False
  | c :: cs =>
    c.isDigit = true ∧
      (numAfterDigit cs = [] ∨
       (∃ d cs2, numAfterDigit cs = d :: cs2 ∧ pySpace d = true) ∨
       (∃ d cs2, numAfterDigit cs = '.' :: d :: cs2 ∧ pySpace d = true))

/-- Average span size of a line (`0` if the line has no spans). -/
def avgSize (line : Line) : ℚ :=
  if line.spans = [] then 0
  else (line.spans.map Span.size).sum / (line.spans.length : ℚ)

/-- The typography profile: optional font sizes for tiers H1..H4
(`heading_size_map` in the code). -/
structure HeadingSizeMap where
  h1 : Option ℚ
  h2 : Option ℚ
  h3 : Option ℚ
  h4 : Option ℚ
deriving DecidableEq, Repr

/-- Condition `avg >= v * 0.95` for a present tier size, `False` for an absent one
(the pattern `"Hk" in heading_size_map and avg >= heading_size_map["Hk"]*0.95`). -/
def sizeGeOpt (avg : ℚ) (o : Option ℚ) : Bool :=
  match o with
  | some v => decide (v * (95 / 100) ≤ avg)
  | none => false

/-- Condition `avg < heading_size_map.get("Hk", float('inf')) * 0.95`: true when the
tier is absent. -/
def sizeLtOptInf (avg : ℚ) (o : Option ℚ) : Bool :=
  match o with
  | some v => decide (avg < v * (95 / 100))
  | none => true

/-- The tier-match bonus of `compute_heading_score` (the trailing
`if / elif / elif` chain). -/
def tierBonus (m : HeadingSizeMap) (avg : ℚ) : ℕ :=
  if sizeGeOpt avg m.h1 then 25
  else if sizeGeOpt avg m.h2 then 20
  else if sizeGeOpt avg m.h3 then 15
  else 0

/-- Source `compute_heading_score(line, heading_size_map, body_text_size)`. -/
def compute_heading_score (line : Line) (m : HeadingSizeMap) (body_text_size : ℚ) : ℕ :=
  let avg := avgSize line
  let sp := if 0 < line.spacing_above then line.spacing_above else 0
  (if body_text_size * (12 / 10) < avg then 40 else 0)
    + (if line.spans.any (fun s => is_bold s.flags) then 25 else 0)
    + (if is_heading_numbered line.text then 25 else 0)
    + (if line.text.length < 80 then 20 else 0)
    + (if line.is_centered then 15 else 0)
    + (if avg * 2 < sp then 20 else 0)
    + (if line.block_density ≤ 3 then 15 else 0)
    + tierBonus m avg

/-- Count of alphanumeric characters, `sum(c.isalnum() for c in s)`. -/
def alnumCount (s : String) : ℕ := s.data.countP Char.isAlphanum

/-- All span sizes above the noise floor:
`[span["size"] for line in lines for span in line["spans"] if span["size"] > 6]`. -/
def allFontSizes (lines : List Line) : List ℚ :=
  (lines.flatMap fun l => l.spans.map Span.size).filter (fun s => 6 < s)

/-- Ascending sort used to model `statistics.median`. -/
def sortedAsc (l : List ℚ) : List ℚ := l.insertionSort (· ≤ ·)

/-- Python `statistics.median`: middle element for odd length, mean of the two middle
elements for even length (the value on `[]` is junk; the code never computes
a median of an empty list). -/
def medianQ (l : List ℚ) : ℚ :=
  let s := sortedAsc l
  let n := s.length
  if n % 2 = 1 then s.getD (n / 2) 0
  else (s.getD (n / 2 - 1) 0 + s.getD (n / 2) 0) / 2

/-- Round-half-to-even to an integer (Python's `round` on exact values). -/
def roundHalfEven (q : ℚ) : ℤ :=
  let f := ⌊q⌋
  if q - f < 1 / 2 then f
  else if (1 : ℚ) / 2 < q - f then f + 1
  else if f % 2 = 0 then f else f + 1

/-- Python `round(s, 1)`. -/
def round1 (q : ℚ) : ℚ := (roundHalfEven (q * 10) : ℚ) / 10

/-- Deduplication keeping the first occurrence of each value, the iteration
order of a Python `Counter`'s keys. -/
def firstDedup (l : List ℚ) : List ℚ :=
  (l.foldl (fun acc x => if x ∈ acc then acc else x :: acc) []).reverse

/-- Number of occurrences of `v` in `l`. -/
def countQ (l : List ℚ) (v : ℚ) : ℕ := l.countP (fun x => x == v)

/-- Python `Counter(l).most_common()[0][0]`: the value with the largest count,
earliest first occurrence winning ties (`most_common` sorts stably by
descending count over insertion order).  `none` iff `l` is empty. -/
def modeOf? (l : List ℚ) : Option ℚ :=
  match firstDedup l with
  | [] => none
  | x :: xs => some (xs.foldl (fun best y => if countQ l best < countQ l y then y else best) x)

/-- Body text size: median of the collected sizes, replaced by
`max(median, mode-of-rounded-sizes)` when the size list is non-empty. -/
def bodyTextSize (sizes : List ℚ) : ℚ :=
  let med := medianQ sizes
  match modeOf? (sizes.map round1) with
  | some m => max med m
  | none => med

/-- Descending relation used for `sorted(..., reverse=True)`. -/
def descQ (a b : ℚ) : Prop := b ≤ a

instance : DecidableRel descQ := fun a b => inferInstanceAs (Decidable (b ≤ a))

instance : IsTotal ℚ descQ := ⟨fun a b => le_total b a⟩

instance : IsTrans ℚ descQ := ⟨fun _ _ _ h1 h2 => le_trans h2 h1⟩

/-- Source `sorted(list(set([s for s in all_font_sizes if s > body*1.2])), reverse=True)`. -/
def potentialHeadingSizes (sizes : List ℚ) (body : ℚ) : List ℚ :=
  ((sizes.filter (fun s => body * (12 / 10) < s)).dedup).insertionSort descQ

/-- Build `heading_size_map` from a descending candidate list `p`: H1 is the
first candidate; H2/H3/H4 are the 2nd/3rd/4th candidates, each present only
when strictly below `0.95` times the first candidate. -/
def tierMapOf (p : List ℚ) : HeadingSizeMap :=
  { h1 := p.head?
    h2 := match p[0]?, p[1]? with
          | some a, some b => if b < a * (95 / 100) then some b else none
          | _, _ => none
    h3 := match p[0]?, p[2]? with
          | some a, some c => if c < a * (95 / 100) then some c else none
          | _, _ => none
    h4 := match p[0]?, p[3]? with
          | some a, some d => if d < a * (95 / 100) then some d else none
          | _, _ => none }

/-- The `heading_size_map` of a document's collected sizes and body size. -/
def headingSizeMapOf (sizes : List ℚ) (body : ℚ) : HeadingSizeMap :=
  tierMapOf (potentialHeadingSizes sizes body)

/-- Heading levels emitted by the assembler. -/
inductive HLevel
  | H1
  | H2
  | H3
deriving DecidableEq, Repr

/-- An outline entry.  The code also stores the source line's top
y-coordinate under key `"y0"` for sorting (deleted just before
serialisation, which is out of scope); we keep it as a field. -/
structure Entry where
  level : HLevel
  text : String
  page : ℕ
  y0 : ℚ
deriving DecidableEq, Repr

/-- The level cascade applied to a qualifying line (`score >= 80`). -/
def levelFor (m : HeadingSizeMap) (avg : ℚ) (score : ℕ) : Option HLevel :=
  if sizeGeOpt avg m.h1 && decide (100 ≤ score) then some HLevel.H1
  else if sizeGeOpt avg m.h2 && sizeLtOptInf avg m.h1 && decide (90 ≤ score) then some HLevel.H2
  else if sizeGeOpt avg m.h3 && sizeLtOptInf avg m.h2 && decide (80 ≤ score) then some HLevel.H3
  else none

/-- De-duplication identity of an entry:
`(text.lower().strip(), page, level)`. -/
def identOf (e : Entry) : String × ℕ × HLevel := (e.text.toLower.trim, e.page, e.level)

/-- Assembler state: accepted entries in encounter order, the set of seen
heading identifiers, and the per-page acceptance counter
(`outline`, `seen_headings`, `headings_per_page`). -/
structure AsmState where
  outline : List Entry
  seen : List (String × ℕ × HLevel)
  counts : ℕ → ℕ

/-- Increment a per-page counter at page `p`. -/
def bump (f : ℕ → ℕ) (p : ℕ) : ℕ → ℕ := fun q => if q = p then f q + 1 else f q

/-- One iteration of the assembler's `for line in lines` loop. -/
def asmStep (m : HeadingSizeMap) (body : ℚ) (title : String) (st : AsmState)
    (line : Line) : AsmState :=
  if alnumCount line.text < 2 ∨ line.text.length < 3 then st
  else if 8 < st.counts line.page then st
  else if 5 < line.block_density then st
  else if compute_heading_score line m body < 80 then st
  else
    match levelFor m (avgSize line) (compute_heading_score line m body) with
    | none => st
    | some lv =>
      if line.text = title then st
      else if (line.text.toLower.trim, line.page, lv) ∈ st.seen then st
      else
        { outline := st.outline ++ [⟨lv, line.text, line.page, line.bbox.y0⟩]
          seen := (line.text.toLower.trim, line.page, lv) :: st.seen
          counts := bump st.counts line.page }

/-- The assembler loop over all lines, before sorting. -/
def assembleRaw (lines : List Line) (m : HeadingSizeMap) (body : ℚ)
    (title : String) : List Entry :=
  (lines.foldl (asmStep m body title) ⟨[], [], fun _ => 0⟩).outline

/-- The sort key order of `outline.sort(key=lambda x: (x["page"], x["y0"]))`. -/
def entLe (a b : Entry) : Prop := a.page < b.page ∨ (a.page = b.page ∧ a.y0 ≤ b.y0)

instance : DecidableRel entLe := fun a b =>
  inferInstanceAs (Decidable (a.page < b.page ∨ (a.page = b.page ∧ a.y0 ≤ b.y0)))

instance : IsTotal Entry entLe :=
  ⟨fun a b => by
    rcases Nat.lt_trichotomy a.page b.page with h | h | h
    · exact Or.inl (Or.inl h)
    · rcases le_total a.y0 b.y0 with h' | h'
      · exact Or.inl (Or.inr ⟨h, h'⟩)
      · exact Or.inr (Or.inr ⟨h.symm, h'⟩)
    · exact Or.inr (Or.inl h)⟩

instance : IsTrans Entry entLe :=
  ⟨fun a b c hab hbc => by
    rcases hab with h | ⟨he, hy⟩
    · rcases hbc with h' | ⟨he', _⟩
      · exact Or.inl (h.trans h')
      · exact Or.inl (he' ▸ h)
    · rcases hbc with h' | ⟨he', hy'⟩
      · exact Or.inl (he ▸ h')
      · exact Or.inr ⟨he.trans he', hy.trans hy'⟩⟩

/-- Python's stable list sort on entries, modelled by insertion sort (which
is stable for a total preorder). -/
def sortEntries (l : List Entry) : List Entry := l.insertionSort entLe

/-- The default title string. -/
def noTitle : String := "No Title Found"

/-- Metadata title acceptance:
`metadata.get("title") and metadata["title"].strip() and sum(c.isalnum() for c in metadata["title"]) >= 3`. -/
def metaTitleOk (t : String) : Bool :=
  t != "" && t.trim != "" && decide (3 ≤ alnumCount t)

/-- The metadata-derived provisional title.  `nfkc` abstracts
`unicodedata.normalize("NFKC", ·)`, applied to the stripped metadata title. -/
def initialTitle (meta : Option String) (nfkc : String → String) : String :=
  match meta with
  | some t => if metaTitleOk t then nfkc t.trim else noTitle
  | none => noTitle

/-- Top y-coordinate of a line. -/
def lineY0 (l : Line) : ℚ := l.bbox.y0

/-- Bottom y-coordinate of a line. -/
def lineY1 (l : Line) : ℚ := l.bbox.y1

/-- First-page sort order (`key=lambda x: x["bbox"][1]`). -/
def fpLe (a b : Line) : Prop := lineY0 a ≤ lineY0 b

instance : DecidableRel fpLe := fun a b => inferInstanceAs (Decidable (lineY0 a ≤ lineY0 b))

instance : IsTotal Line fpLe := ⟨fun a b => le_total (lineY0 a) (lineY0 b)⟩

instance : IsTrans Line fpLe := ⟨fun _ _ _ h1 h2 => le_trans h1 h2⟩

/-- First-page lines sorted top to bottom. -/
def firstPageLines (lines : List Line) : List Line :=
  (lines.filter (fun l => l.page == 1)).insertionSort fpLe

/-- State of the title-clustering loop
(`title_candidates`, `current_title`, `prev_size`, `prev_y1`). -/
structure ClusterState where
  cands : List (List Line)
  cur : List Line
  prevSize : Option ℚ
  prevY1 : Option ℚ

/-- One iteration of the clustering loop over sorted first-page lines. -/
def clusterStep (st : ClusterState) (line : Line) : ClusterState :=
  let avg := avgSize line
  let cont : Bool :=
    match st.prevSize with
    | none => true
    | some ps =>
      match st.prevY1 with
      | none => false
      | some py => decide (lineY0 line - py < avg * (15 / 10)) && decide (|avg - ps| < 1)
  if cont then
    { st with cur := st.cur ++ [line], prevSize := some avg, prevY1 := some (lineY1 line) }
  else
    { cands := st.cands ++ (if st.cur.isEmpty then [] else [st.cur])
      cur := [line]
      prevSize := some avg
      prevY1 := some (lineY1 line) }

/-- Visual title candidates: runs of first-page lines. -/
def titleClusters (lines : List Line) : List (List Line) :=
  let st := (firstPageLines lines).foldl clusterStep ⟨[], [], none, none⟩
  st.cands ++ (if st.cur.isEmpty then [] else [st.cur])

/-- Concatenated text of a candidate cluster. -/
def clusterText (c : List Line) : String := String.intercalate " " (c.map Line.text)

/-- Mean of the per-line average sizes of a cluster. -/
def clusterAvgSize (c : List Line) : ℚ := (c.map avgSize).sum / (c.length : ℚ)

/-- The five additive title-cluster signals (`fph` is the first page's
height, read by the code from the document). -/
def clusterScore (c : List Line) (body fph : ℚ) : ℕ :=
  (if body * (13 / 10) < clusterAvgSize c then 40 else 0)
    + (if c.any (fun l => l.is_centered) then 25 else 0)
    + (if c.any (fun l => l.spans.any (fun s => is_bold s.flags)) then 25 else 0)
    + (if (match c.head? with
           | some l => decide (lineY0 l < (25 / 100) * fph)
           | none => false) then 30 else 0)
    + (if c.length = 1 ∨ (1 < c.length ∧ c.all (fun l => l.block_density ≤ 3)) then 20 else 0)

/-- One iteration of the best-candidate selection loop
(`if score > best_title_score and score >= 80`). -/
def titleSelStep (body fph : ℚ) (best : ℕ × String) (c : List Line) : ℕ × String :=
  let text := clusterText c
  if alnumCount text < 3 ∨ text.length < 5 then best
  else
    let score := clusterScore c body fph
    if best.1 < score ∧ 80 ≤ score then (score, text) else best

/-- Visual title detection: the provisional title `t0` is replaced by the
best cluster's text when its score reaches 80. -/
def detectTitle (lines : List Line) (t0 : String) (body fph : ℚ) : String :=
  let best := (titleClusters lines).foldl (titleSelStep body fph) (0, t0)
  if 80 ≤ best.1 then best.2 else t0

/-- The output of the core. -/
structure DocumentOutline where
  title : String
  outline : List Entry
deriving DecidableEq, Repr

/-- The title fallback: when the title is still `"No Title Found"` and the
outline is non-empty, promote the first H1 entry's text and drop every entry
sharing that exact text and that page. -/
def applyFallback (t : String) (out : List Entry) : String × List Entry :=
  if t = noTitle ∧ out ≠ [] then
    match out.find? (fun e => e.level == HLevel.H1) with
    | some e => (e.text, out.filter (fun x => !(x.text == e.text && x.page == e.page)))
    | none => (t, out)
  else (t, out)

/-- The title as it stands when the assembler's per-line loop runs: default
for an empty line list, metadata-only when no sizes survive the noise floor,
otherwise the visual-detection result. -/
def preTitle (lines : List Line) (meta : Option String) (nfkc : String → String)
    (fph : ℚ) : String :=
  if lines = [] then noTitle
  else if allFontSizes lines = [] then initialTitle meta nfkc
  else detectTitle lines (initialTitle meta nfkc) (bodyTextSize (allFontSizes lines)) fph

/-- The outline accumulated by the assembler loop, before sorting. -/
def assembledRaw (lines : List Line) (meta : Option String) (nfkc : String → String)
    (fph : ℚ) : List Entry :=
  if lines = [] then []
  else if allFontSizes lines = [] then []
  else
    assembleRaw lines
      (headingSizeMapOf (allFontSizes lines) (bodyTextSize (allFontSizes lines)))
      (bodyTextSize (allFontSizes lines)) (preTitle lines meta nfkc fph)

/-- The outline after the stable sort by `(page, y0)`. -/
def sortedOutline (lines : List Line) (meta : Option String) (nfkc : String → String)
    (fph : ℚ) : List Entry :=
  sortEntries (assembledRaw lines meta nfkc fph)

/-- Source `identify_headings`: the whole core, from retained lines, metadata title,
NFKC normaliser and first-page height to the document outline. -/
def identify_headings (lines : List Line) (meta : Option String)
    (nfkc : String → String) (fph : ℚ) : DocumentOutline :=
  ⟨(applyFallback (preTitle lines meta nfkc fph) (sortedOutline lines meta nfkc fph)).1,
   (applyFallback (preTitle lines meta nfkc fph) (sortedOutline lines meta nfkc fph)).2⟩

/-- The page of the entry promoted to title by the fallback, when it fires. -/
def promotedPage (lines : List Line) (meta : Option String) (nfkc : String → String)
    (fph : ℚ) : Option ℕ :=
  if preTitle lines meta nfkc fph = noTitle then
    ((sortedOutline lines meta nfkc fph).find? (fun e => e.level == HLevel.H1)).map Entry.page
  else none

/-- Sum of the heading signals other than Numbered: the value of
`compute_heading_score` with the Numbered bonus deleted. -/
def scoreSansNumbered (line : Line) (m : HeadingSizeMap) (body_text_size : ℚ) : ℕ :=
  let avg := avgSize line
  let sp := if 0 < line.spacing_above then line.spacing_above else 0
  (if body_text_size * (12 / 10) < avg then 40 else 0)
    + (if line.spans.any (fun s => is_bold s.flags) then 25 else 0)
    + (if line.text.length < 80 then 20 else 0)
    + (if line.is_centered then 15 else 0)
    + (if avg * 2 < sp then 20 else 0)
    + (if line.block_density ≤ 3 then 15 else 0)
    + tierBonus m avg

/-- A line whose text is "1.Introduction": its digit prefix is immediately
followed by a dot, so claim C1 predicts the Numbered bonus. -/
def c1LineA : Line :=
  ⟨"1.Introduction", 1, ⟨0, 100, 50, 110⟩,
    [⟨"1.Introduction", "f", 10, 0, (0, 100, 50, 110)⟩], false, 0, 1⟩

/-- The same line with a space after the dot ("1. Introduction"). -/
def c1LineB : Line :=
  ⟨"1. Introduction", 1, ⟨0, 100, 50, 110⟩,
    [⟨"1. Introduction", "f", 10, 0, (0, 100, 50, 110)⟩], false, 0, 1⟩

/-- Number of outline entries on page `p`. -/
def pageCount (l : List Entry) (p : ℕ) : ℕ := l.countP (fun e => e.page == p)

/-- Invariant of the assembler loop, for the title string `t` the loop runs
with: no accepted entry duplicates the title text, the per-page counter
agrees with the outline and never exceeds 9, accepted identity triples are
pairwise distinct, and every accepted triple has been recorded in `seen`. -/
def AsmInv (t : String) (st : AsmState) : Prop :=
  (∀ e ∈ st.outline, e.text ≠ t) ∧
  (∀ p, st.counts p = pageCount st.outline p) ∧
  (∀ p, pageCount st.outline p ≤ 9) ∧
  st.outline.Pairwise (fun a b => identOf a ≠ identOf b) ∧
  (∀ e ∈ st.outline, identOf e ∈ st.seen)

/-- Exact-key test for the stability statement: entries with this exact sort
key `(pg, y)`. -/
def keyMatch (pg : ℕ) (y : ℚ) (e : Entry) : Bool := e.page == pg && e.y0 == y

/-- Concrete scenario for C2/C5: two body-text pages with an oversized
heading "Chapter 1" on page 2 and again on page 3, no first-page lines and
no metadata title, so the fallback promotes the page-2 heading. -/
def c2LineB1 : Line :=
  ⟨"body text one", 2, ⟨0, 30, 50, 40⟩,
    [⟨"body text one", "f", 10, 0, (0, 30, 50, 40)⟩], false, 0, 6⟩

/-- Second body line of the C2/C5 scenario. -/
def c2LineB2 : Line :=
  ⟨"body text two", 2, ⟨0, 50, 50, 60⟩,
    [⟨"body text two", "f", 10, 0, (0, 50, 50, 60)⟩], false, 10, 6⟩

/-- The page-2 heading of the C2/C5 scenario. -/
def c2LineH1 : Line :=
  ⟨"Chapter 1", 2, ⟨0, 120, 50, 130⟩,
    [⟨"Chapter 1", "f", 20, 0, (0, 120, 50, 130)⟩], false, 60, 1⟩

/-- Third body line of the C2/C5 scenario (page 3). -/
def c2LineB3 : Line :=
  ⟨"body text three", 3, ⟨0, 30, 50, 40⟩,
    [⟨"body text three", "f", 10, 0, (0, 30, 50, 40)⟩], false, 0, 6⟩

/-- The page-3 heading of the C2/C5 scenario, same text as on page 2. -/
def c2LineH2 : Line :=
  ⟨"Chapter 1", 3, ⟨0, 120, 50, 130⟩,
    [⟨"Chapter 1", "f", 20, 0, (0, 120, 50, 130)⟩], false, 80, 1⟩

/-- The C2/C5 scenario document. -/
def c2Lines : List Line := [c2LineB1, c2LineB2, c2LineH1, c2LineB3, c2LineH2]

/-- Concrete document for C3: four body spans of size 10 and one line with
spans of sizes 100, 96, 94.  Candidates are [100, 96, 94]; 96 is not below
0.95 x 100, so H2 is absent while H3 = 94 is present. -/
def c3LineA : Line :=
  ⟨"plain body paragraph", 2, ⟨0, 30, 50, 40⟩,
    [⟨"plain", "f", 10, 0, (0, 30, 10, 40)⟩, ⟨"body", "f", 10, 0, (10, 30, 20, 40)⟩,
     ⟨"para", "f", 10, 0, (20, 30, 30, 40)⟩, ⟨"graph", "f", 10, 0, (30, 30, 40, 40)⟩],
    false, 0, 6⟩

/-- The mixed-size heading line of the C3 scenario. -/
def c3LineB : Line :=
  ⟨"Big Header", 2, ⟨0, 60, 50, 75⟩,
    [⟨"Big", "f", 100, 0, (0, 60, 20, 75)⟩, ⟨"Hea", "f", 96, 0, (20, 60, 35, 75)⟩,
     ⟨"der", "f", 94, 0, (35, 60, 50, 75)⟩],
    false, 15, 1⟩

/-- The C3 scenario document. -/
def c3Lines : List Line := [c3LineA, c3LineB]

/-- Concrete scenario for C4: body text and a single oversized H1 "Overview"
on page 2, with no first-page lines and no metadata title. -/
def c4LineB1 : Line :=
  ⟨"some body words", 2, ⟨0, 30, 50, 40⟩,
    [⟨"some body words", "f", 10, 0, (0, 30, 50, 40)⟩], false, 0, 6⟩

/-- Second body line of the C4 scenario. -/
def c4LineB2 : Line :=
  ⟨"more body words", 2, ⟨0, 50, 50, 60⟩,
    [⟨"more body words", "f", 10, 0, (0, 50, 50, 60)⟩], false, 10, 6⟩

/-- Third body line of the C4 scenario. -/
def c4LineB3 : Line :=
  ⟨"even more body", 2, ⟨0, 62, 50, 70⟩,
    [⟨"even more body", "f", 10, 0, (0, 62, 50, 70)⟩], false, 2, 6⟩

/-- The promoted heading of the C4 scenario. -/
def c4LineH : Line :=
  ⟨"Overview", 2, ⟨0, 120, 50, 130⟩,
    [⟨"Overview", "f", 20, 0, (0, 120, 50, 130)⟩], false, 50, 1⟩

/-- The C4 scenario document. -/
def c4Lines : List Line := [c4LineB1, c4LineB2, c4LineB3, c4LineH]

/-- Concrete document for C6: a single line with one span of size 10. -/
def c6Lines : List Line :=
  [⟨"one single line", 1, ⟨0, 30, 50, 40⟩,
    [⟨"one single line", "f", 10, 0, (0, 30, 50, 40)⟩], false, 0, 1⟩]

/-- Concrete document for C8: a non-empty line list whose only span has size
5, below the noise floor. -/
def c8Lines : List Line :=
  [⟨"tiny text line", 1, ⟨0, 30, 50, 40⟩,
    [⟨"tiny text line", "f", 5, 0, (0, 30, 50, 40)⟩], false, 0, 1⟩]

/-- Concrete line for the C10 witness. -/
def c10Line : Line :=
  ⟨"Chapter 7", 2, ⟨0, 120, 50, 130⟩,
    [⟨"Chapter 7", "f", 20, 0, (0, 120, 50, 130)⟩], false, 50, 1⟩

/-- Unfolding lemma for `numTailOK` on a non-empty list. -/
theorem numTailOK_cons (c : Char) (rest : List Char) :
    numTailOK (c :: rest) =
      if c = '.' then
        (match rest with
         | [] => false
         | d :: _ => pySpace d)
      else pySpace c := rfl

/-- Each assembler iteration either leaves the state unchanged or accepts the
line: then the page is below the cap, the text differs from the title, the
identity triple is fresh, and the entry is appended while `seen` and the
counter are updated. -/
theorem asmStep_cases (m : HeadingSizeMap) (body : ℚ) (t : String) (st : AsmState)
    (line : Line) :
    asmStep m body t st line = st ∨
    ∃ lv : HLevel,
      st.counts line.page ≤ 8 ∧
      line.text ≠ t ∧
      (line.text.toLower.trim, line.page, lv) ∉ st.seen ∧
      asmStep m body t st line =
        { outline := st.outline ++ [⟨lv, line.text, line.page, line.bbox.y0⟩]
          seen := (line.text.toLower.trim, line.page, lv) :: st.seen
          counts := bump st.counts line.page } := by
  unfold asmStep
  by_cases h1 : alnumCount line.text < 2 ∨ line.text.length < 3
  · rw [if_pos h1]
    exact Or.inl rfl
  rw [if_neg h1]
  by_cases h2 : 8 < st.counts line.page
  · rw [if_pos h2]
    exact Or.inl rfl
  rw [if_neg h2]
  by_cases h3 : 5 < line.block_density
  · rw [if_pos h3]
    exact Or.inl rfl
  rw [if_neg h3]
  by_cases h4 : compute_heading_score line m body < 80
  · rw [if_pos h4]
    exact Or.inl rfl
  rw [if_neg h4]
  cases hl : levelFor m (avgSize line) (compute_heading_score line m body) with
  | none => exact Or.inl rfl
  | some lv =>
    dsimp only
    by_cases h5 : line.text = t
    · rw [if_pos h5]
      exact Or.inl rfl
    rw [if_neg h5]
    by_cases h6 : (line.text.toLower.trim, line.page, lv) ∈ st.seen
    · rw [if_pos h6]
      exact Or.inl rfl
    rw [if_neg h6]
    exact Or.inr ⟨lv, Nat.le_of_not_lt h2, h5, h6, rfl⟩

/-- The assembler invariant is preserved by one iteration. -/
theorem asmInv_step (m : HeadingSizeMap) (body : ℚ) (t : String) (st : AsmState)
    (line : Line) (h : AsmInv t st) : AsmInv t (asmStep m body t st line) := by
  rcases asmStep_cases m body t st line with he | ⟨lv, hc, ht, hs, he⟩
  · rw [he]
    exact h
  · rw [he]
    obtain ⟨I1, I2, I3, I4, I5⟩ := h
    have hcount : ∀ p : ℕ,
        pageCount (st.outline ++ [(⟨lv, line.text, line.page, line.bbox.y0⟩ : Entry)]) p =
          pageCount st.outline p + (if line.page = p then 1 else 0) := by
      intro p
      unfold pageCount
      rw [List.countP_append]
      by_cases hp : line.page = p
      · simp [List.countP_cons, hp]
      · simp [List.countP_cons, hp]
    refine ⟨?_, ?_, ?_, ?_, ?_⟩
    · intro e hme
      rcases List.mem_append.mp hme with hin | hin
      · exact I1 e hin
      · rw [List.mem_singleton] at hin
        subst hin
        exact ht
    · intro p
      show bump st.counts line.page p = _
      rw [hcount p]
      unfold bump
      by_cases hp : p = line.page
      · subst hp
        rw [if_pos rfl, if_pos rfl, I2 line.page]
      · rw [if_neg hp, if_neg (fun hx => hp hx.symm), I2 p]
        omega
    · intro p
      rw [hcount p]
      by_cases hp : line.page = p
      · have h8 : pageCount st.outline p ≤ 8 := by
          rw [← hp, ← I2 line.page]
          exact hc
        rw [if_pos hp]
        omega
      · rw [if_neg hp]
        have := I3 p
        omega
    · rw [List.pairwise_append]
      refine ⟨I4, List.pairwise_singleton _ _, ?_⟩
      intro a ha b hb
      rw [List.mem_singleton] at hb
      subst hb
      intro heq
      have h' : identOf (⟨lv, line.text, line.page, line.bbox.y0⟩ : Entry) ∈ st.seen :=
        heq ▸ I5 a ha
      exact hs h'
    · intro e hme
      rcases List.mem_append.mp hme with hin | hin
      · exact List.mem_cons_of_mem _ (I5 e hin)
      · rw [List.mem_singleton] at hin
        subst hin
        exact List.mem_cons_self _ _

/-- The assembler invariant is preserved by the whole loop. -/
theorem asmInv_fold (m : HeadingSizeMap) (body : ℚ) (t : String) (lines : List Line)
    (st : AsmState) (h : AsmInv t st) :
    AsmInv t (lines.foldl (asmStep m body t) st) := by
  induction lines generalizing st with
  | nil => exact h
  | cons l ls ih => exact ih _ (asmInv_step m body t st l h)

/-- The initial assembler state satisfies the invariant. -/
theorem asmInv_init (t : String) : AsmInv t ⟨[], [], fun _ => 0⟩ := by
  refine ⟨?_, ?_, ?_, List.Pairwise.nil, ?_⟩
  · intro e he
    exact absurd he (List.not_mem_nil e)
  · intro p
    rfl
  · intro p
    unfold pageCount
    simp
  · intro e he
    exact absurd he (List.not_mem_nil e)

/-- Invariant facts about the raw assembled outline. -/
theorem assembleRaw_inv (lines : List Line) (m : HeadingSizeMap) (body : ℚ)
    (t : String) :
    (∀ e ∈ assembleRaw lines m body t, e.text ≠ t) ∧
    (∀ p, pageCount (assembleRaw lines m body t) p ≤ 9) ∧
    (assembleRaw lines m body t).Pairwise (fun a b => identOf a ≠ identOf b) := by
  have h := asmInv_fold m body t lines ⟨[], [], fun _ => 0⟩ (asmInv_init t)
  exact ⟨h.1, h.2.2.1, h.2.2.2.1⟩

/-- Sorting is a permutation. -/
theorem sortEntries_perm (l : List Entry) : List.Perm (sortEntries l) l :=
  List.perm_insertionSort entLe l

/-- Sorting sorts by the `(page, y0)` order. -/
theorem sortEntries_sorted (l : List Entry) : List.Sorted entLe (sortEntries l) :=
  List.sorted_insertionSort entLe l

/-- The fallback returns a sublist of the outline it is given. -/
theorem applyFallback_snd_sublist (t : String) (out : List Entry) :
    List.Sublist (applyFallback t out).2 out := by
  unfold applyFallback
  by_cases h : t = noTitle ∧ out ≠ []
  · rw [if_pos h]
    cases hf : out.find? (fun e => e.level == HLevel.H1) with
    | none => exact List.Sublist.refl out
    | some e => exact List.filter_sublist out
  · rw [if_neg h]

/-- C1, counterexample.  The text "1.Introduction" satisfies the claim's
pattern (digit prefix followed by a dot), yet `is_heading_numbered` rejects
it and the scorer awards only the 35 base points (Short 20 + Sparse 15),
exactly `scoreSansNumbered`; the same line with a space after the dot gets
60.  So the Numbered signal is not granted whenever the digit prefix is
merely followed by a dot. -/
theorem numbered_signal_counterexample :
    numberedClaimed "1.Introduction" = true ∧
    is_heading_numbered "1.Introduction" = false ∧
    compute_heading_score c1LineA ⟨none, none, none, none⟩ 10 = 35 ∧
    scoreSansNumbered c1LineA ⟨none, none, none, none⟩ 10 = 35 ∧
    compute_heading_score c1LineB ⟨none, none, none, none⟩ 10 = 60 := by
  refine ⟨by decide, by decide, by with_unfolding_all decide,
    by with_unfolding_all decide, by with_unfolding_all decide⟩

/-- C1, amended.  The Numbered signal adds exactly 25 points iff the text
begins with one or more digit groups separated by dots and the rest of the
string after the maximal numeric prefix is empty, starts with whitespace, or
starts with a dot immediately followed by whitespace.  In particular a digit
prefix followed by a bare dot (as in "1." or "1.Introduction") does NOT
receive the bonus. -/
theorem numbered_signal_amended :
    (∀ s : String, is_heading_numbered s = true ↔ numberedAmended s) ∧
    (∀ (line : Line) (m : HeadingSizeMap) (b : ℚ),
      compute_heading_score line m b =
        scoreSansNumbered line m b + (if is_heading_numbered line.text then 25 else 0)) := by
  constructor
  · intro s
    unfold is_heading_numbered numberedAmended
    cases s.data with
    | nil => simp
    | cons c cs =>
      simp only [Bool.and_eq_true]
      constructor
      · rintro ⟨hd, ht⟩
        refine ⟨hd, ?_⟩
        rcases hr : numAfterDigit cs with _ | ⟨d, rest⟩
        · exact Or.inl rfl
        · rw [hr, numTailOK_cons] at ht
          by_cases hdot : d = '.'
          · subst hdot
            rw [if_pos rfl] at ht
            cases rest with
            | nil => exact Bool.noConfusion ht
            | cons d2 rest2 => exact Or.inr (Or.inr ⟨d2, rest2, rfl, ht⟩)
          · rw [if_neg hdot] at ht
            exact Or.inr (Or.inl ⟨d, rest, rfl, ht⟩)
      · rintro ⟨hd, ht⟩
        refine ⟨hd, ?_⟩
        rcases ht with h | ⟨d, cs2, he, hs⟩ | ⟨d, cs2, he, hs⟩
        · rw [h]
          rfl
        · rw [he, numTailOK_cons]
          by_cases hdot : d = '.'
          · subst hdot
            exact absurd hs (by decide)
          · rw [if_neg hdot]
            exact hs
        · rw [he, numTailOK_cons, if_pos rfl]
          exact hs
  · intro line m b
    unfold compute_heading_score scoreSansNumbered
    by_cases hn : is_heading_numbered line.text <;>
      simp only [hn, if_true, if_false] <;> omega

/-- Filtering an exact sort key commutes with ordered insertion: the inserted
element lands in front of the equal-key block, so it appears first iff it has
the key. -/
theorem filter_orderedInsert_key (pg : ℕ) (y : ℚ) (x : Entry) (l : List Entry) :
    (List.orderedInsert entLe x l).filter (keyMatch pg y) =
      if keyMatch pg y x then x :: l.filter (keyMatch pg y)
      else l.filter (keyMatch pg y) := by
  rw [List.orderedInsert_eq_take_drop, List.filter_append, List.filter_cons]
  by_cases hx : keyMatch pg y x = true
  · have htake : (l.takeWhile fun b => decide ¬entLe x b).filter (keyMatch pg y) = [] := by
      rw [List.filter_eq_nil_iff]
      intro b hb hkb
      have hq := @List.mem_takeWhile_imp Entry (fun b => decide ¬entLe x b) l b hb
      have hnb : ¬entLe x b := of_decide_eq_true hq
      apply hnb
      unfold keyMatch at hx hkb
      rw [Bool.and_eq_true, beq_iff_eq, beq_iff_eq] at hx hkb
      exact Or.inr ⟨by rw [hx.1, hkb.1], by rw [hx.2, hkb.2]⟩
    rw [if_pos hx, if_pos hx, htake, List.nil_append]
    congr 1
    conv_rhs => rw [← List.takeWhile_append_dropWhile (fun b => decide ¬entLe x b) l]
    rw [List.filter_append, htake, List.nil_append]
  · rw [if_neg hx, if_neg hx]
    conv_rhs => rw [← List.takeWhile_append_dropWhile (fun b => decide ¬entLe x b) l]
    rw [List.filter_append]

/-- The stable sort preserves the relative order (the filtered subsequence)
of entries sharing one exact sort key. -/
theorem filter_sortEntries_key (pg : ℕ) (y : ℚ) (l : List Entry) :
    (sortEntries l).filter (keyMatch pg y) = l.filter (keyMatch pg y) := by
  unfold sortEntries
  induction l with
  | nil => rfl
  | cons x xs ih =>
    show (List.orderedInsert entLe x (List.insertionSort entLe xs)).filter (keyMatch pg y) = _
    rw [filter_orderedInsert_key, List.filter_cons]
    by_cases hx : keyMatch pg y x = true
    · rw [if_pos hx, if_pos hx, ih]
    · rw [if_neg hx, if_neg hx, ih]

/-- Invariant facts lifted to `assembledRaw` (holding vacuously on the empty
early-return branches). -/
theorem assembledRaw_facts (lines : List Line) (meta : Option String)
    (nfkc : String → String) (fph : ℚ) :
    (∀ e ∈ assembledRaw lines meta nfkc fph, e.text ≠ preTitle lines meta nfkc fph) ∧
    (∀ p, pageCount (assembledRaw lines meta nfkc fph) p ≤ 9) ∧
    (assembledRaw lines meta nfkc fph).Pairwise (fun a b => identOf a ≠ identOf b) := by
  unfold assembledRaw
  by_cases h0 : lines = []
  · rw [if_pos h0]
    refine ⟨?_, ?_, List.Pairwise.nil⟩
    · intro e he
      exact absurd he (List.not_mem_nil e)
    · intro p
      unfold pageCount
      simp
  rw [if_neg h0]
  by_cases h1 : allFontSizes lines = []
  · rw [if_pos h1]
    refine ⟨?_, ?_, List.Pairwise.nil⟩
    · intro e he
      exact absurd he (List.not_mem_nil e)
    · intro p
      unfold pageCount
      simp
  rw [if_neg h1]
  exact assembleRaw_inv lines _ _ _

/-- Entries of the sorted outline never carry the pre-fallback title text. -/
theorem sortedOutline_text_ne (lines : List Line) (meta : Option String)
    (nfkc : String → String) (fph : ℚ) :
    ∀ e ∈ sortedOutline lines meta nfkc fph, e.text ≠ preTitle lines meta nfkc fph := by
  intro e he
  exact (assembledRaw_facts lines meta nfkc fph).1 e
    ((sortEntries_perm (assembledRaw lines meta nfkc fph)).mem_iff.mp he)

/-- Case analysis of the fallback for entries whose text equals the final
title: such an entry can only survive when the fallback promoted the first
H1 entry, and then only on a different page. -/
theorem applyFallback_title_cases (t : String) (s : List Entry)
    (hs : ∀ x ∈ s, x.text ≠ t) :
    ∀ e ∈ (applyFallback t s).2, e.text = (applyFallback t s).1 →
      ∃ e', s.find? (fun x => x.level == HLevel.H1) = some e' ∧
        t = noTitle ∧ e.page ≠ e'.page := by
  intro e he hetext
  unfold applyFallback at he hetext
  by_cases hcond : t = noTitle ∧ s ≠ []
  · rw [if_pos hcond] at he hetext
    cases hf : s.find? (fun x => x.level == HLevel.H1) with
    | none =>
      rw [hf] at he hetext
      exact absurd hetext (hs e he)
    | some e' =>
      rw [hf] at he hetext
      refine ⟨e', rfl, hcond.1, ?_⟩
      intro hpe
      have h2 := (List.mem_filter.mp he).2
      rw [Bool.not_eq_true'] at h2
      rw [hetext, hpe] at h2
      simp at h2
  · rw [if_neg hcond] at he hetext
    exact absurd hetext (hs e he)

/-- C2.  In the returned `DocumentOutline`, any entry whose text equals the
final title can only exist when the fallback promoted an H1 entry to be the
title, and then the surviving entry lies on a different page than the
promoted one; in particular no entry shares the title's text on the
promoted entry's page, and outside the fallback no entry carries the title
text at all. -/
theorem outline_title_disjoint (lines : List Line) (meta : Option String)
    (nfkc : String → String) (fph : ℚ) :
    ∀ e ∈ (identify_headings lines meta nfkc fph).outline,
      e.text = (identify_headings lines meta nfkc fph).title →
      ∃ p, promotedPage lines meta nfkc fph = some p ∧ e.page ≠ p := by
  intro e he hetext
  obtain ⟨e', hf, htno, hne⟩ :=
    applyFallback_title_cases (preTitle lines meta nfkc fph)
      (sortedOutline lines meta nfkc fph)
      (sortedOutline_text_ne lines meta nfkc fph) e he hetext
  refine ⟨e'.page, ?_, hne⟩
  unfold promotedPage
  rw [if_pos htno, hf]
  rfl

/-- C2 witness: a document with no metadata and no first-page lines, whose
page-2 and page-3 headings both read "Chapter 1"; the fallback promotes the
page-2 entry, and the surviving equal-text entry sits on page 3 ≠ 2. -/
theorem outline_title_disjoint_witness :
    ∃ p, promotedPage c2Lines none id 100 = some p ∧
      (⟨HLevel.H1, "Chapter 1", 3, 120⟩ : Entry).page ≠ p :=
  outline_title_disjoint c2Lines none id 100 ⟨HLevel.H1, "Chapter 1", 3, 120⟩
    (by with_unfolding_all decide) (by with_unfolding_all decide)

/-- C7.  Adjacent outline entries of the result are ordered by page, then by
the source line's top y-coordinate; and the sort is stable: entries sharing
one exact `(page, y0)` key keep their pre-sort relative order. -/
theorem outline_reading_order (lines : List Line) (meta : Option String)
    (nfkc : String → String) (fph : ℚ) :
    ((identify_headings lines meta nfkc fph).outline).Chain'
      (fun a b => a.page < b.page ∨ (a.page = b.page ∧ a.y0 ≤ b.y0)) ∧
    ∀ (pg : ℕ) (y : ℚ),
      (sortedOutline lines meta nfkc fph).filter (keyMatch pg y) =
        (assembledRaw lines meta nfkc fph).filter (keyMatch pg y) := by
  constructor
  · have hsorted : List.Sorted entLe (sortedOutline lines meta nfkc fph) :=
      sortEntries_sorted (assembledRaw lines meta nfkc fph)
    have hsub := applyFallback_snd_sublist (preTitle lines meta nfkc fph)
      (sortedOutline lines meta nfkc fph)
    have hpair : ((identify_headings lines meta nfkc fph).outline).Pairwise entLe :=
      List.Pairwise.sublist hsub hsorted
    exact hpair.chain'
  · intro pg y
    exact filter_sortEntries_key pg y (assembledRaw lines meta nfkc fph)

/-- C5.  Every page contributes at most 9 entries to the returned outline,
and an assembler iteration on a line whose page has already reached the cap
returns the state unchanged, whatever the line's score. -/
theorem per_page_cap (lines : List Line) (meta : Option String)
    (nfkc : String → String) (fph : ℚ) (p : ℕ) :
    pageCount (identify_headings lines meta nfkc fph).outline p ≤ 9 ∧
    ∀ (m : HeadingSizeMap) (body : ℚ) (t : String) (st : AsmState) (line : Line),
      8 < st.counts line.page → asmStep m body t st line = st := by
  constructor
  · have hraw := (assembledRaw_facts lines meta nfkc fph).2.1 p
    have hsort : pageCount (sortedOutline lines meta nfkc fph) p =
        pageCount (assembledRaw lines meta nfkc fph) p :=
      (sortEntries_perm (assembledRaw lines meta nfkc fph)).countP_eq _
    have hfin : pageCount (identify_headings lines meta nfkc fph).outline p ≤
        pageCount (sortedOutline lines meta nfkc fph) p :=
      List.Sublist.countP_le (fun e : Entry => e.page == p)
        (applyFallback_snd_sublist (preTitle lines meta nfkc fph)
          (sortedOutline lines meta nfkc fph))
    omega
  · intro m body t st line hgt
    unfold asmStep
    by_cases h1 : alnumCount line.text < 2 ∨ line.text.length < 3
    · rw [if_pos h1]
    · rw [if_neg h1, if_pos hgt]

/-- C5 witness: the cap holds on a concrete document, and a concrete full
page (counter at 9) rejects a would-be heading line. -/
theorem per_page_cap_witness :
    pageCount (identify_headings c2Lines none id 100).outline 3 ≤ 9 ∧
    asmStep ⟨some 20, none, none, none⟩ 10 "T" ⟨[], [], fun _ => 9⟩ c2LineH2 =
      ⟨[], [], fun _ => 9⟩ := by
  have h := per_page_cap c2Lines none id 100 3
  exact ⟨h.1, h.2 ⟨some 20, none, none, none⟩ 10 "T" ⟨[], [], fun _ => 9⟩ c2LineH2
    (by decide)⟩

/-- C9.  No two entries of the returned outline agree simultaneously on the
lower-cased trimmed text, the page and the level. -/
theorem outline_identity_distinct (lines : List Line) (meta : Option String)
    (nfkc : String → String) (fph : ℚ) :
    ((identify_headings lines meta nfkc fph).outline).Pairwise
      (fun a b => ¬(a.text.toLower.trim = b.text.toLower.trim ∧
        a.page = b.page ∧ a.level = b.level)) := by
  have hraw := (assembledRaw_facts lines meta nfkc fph).2.2
  have hsorted : (sortedOutline lines meta nfkc fph).Pairwise
      (fun a b => identOf a ≠ identOf b) :=
    hraw.perm (sortEntries_perm (assembledRaw lines meta nfkc fph)).symm
      (fun h he => h he.symm)
  have hfin := List.Pairwise.sublist
    (applyFallback_snd_sublist (preTitle lines meta nfkc fph)
      (sortedOutline lines meta nfkc fph)) hsorted
  refine hfin.imp ?_
  intro a b hab hconj
  apply hab
  show (a.text.toLower.trim, a.page, a.level) = (b.text.toLower.trim, b.page, b.level)
  rw [hconj.1, hconj.2.1, hconj.2.2]

/-- The H2 field of the tier map is the 2nd candidate, present iff it exists
and is below 0.95 times the 1st candidate. -/
theorem tierMapOf_h2 (p : List ℚ) (v : ℚ) :
    (tierMapOf p).h2 = some v ↔
      (p[1]? = some v ∧ ∃ a, p[0]? = some a ∧ v < a * (95 / 100)) := by
  unfold tierMapOf
  dsimp only
  cases h0 : p[0]? with
  | none => cases h1 : p[1]? <;> simp [h0, h1]
  | some a =>
    cases h1 : p[1]? with
    | none => simp [h1]
    | some b =>
      dsimp only
      by_cases hb : b < a * (95 / 100)
      · rw [if_pos hb]
        simp only [Option.some.injEq]
        constructor
        · rintro rfl
          exact ⟨rfl, a, rfl, hb⟩
        · rintro ⟨hv, _⟩
          exact hv
      · rw [if_neg hb]
        constructor
        · rintro h
          exact absurd h (by simp)
        · rintro ⟨hv, a', ha', hlt⟩
          rw [Option.some.injEq] at hv ha'
          subst hv
          subst ha'
          exact absurd hlt hb

/-- The H3 field of the tier map is the 3rd candidate, present iff it exists
and is below 0.95 times the 1st candidate. -/
theorem tierMapOf_h3 (p : List ℚ) (v : ℚ) :
    (tierMapOf p).h3 = some v ↔
      (p[2]? = some v ∧ ∃ a, p[0]? = some a ∧ v < a * (95 / 100)) := by
  unfold tierMapOf
  dsimp only
  cases h0 : p[0]? with
  | none => cases h1 : p[2]? <;> simp [h0, h1]
  | some a =>
    cases h1 : p[2]? with
    | none => simp [h1]
    | some b =>
      dsimp only
      by_cases hb : b < a * (95 / 100)
      · rw [if_pos hb]
        simp only [Option.some.injEq]
        constructor
        · rintro rfl
          exact ⟨rfl, a, rfl, hb⟩
        · rintro ⟨hv, _⟩
          exact hv
      · rw [if_neg hb]
        constructor
        · rintro h
          exact absurd h (by simp)
        · rintro ⟨hv, a', ha', hlt⟩
          rw [Option.some.injEq] at hv ha'
          subst hv
          subst ha'
          exact absurd hlt hb

/-- The H4 field of the tier map is the 4th candidate, present iff it exists
and is below 0.95 times the 1st candidate. -/
theorem tierMapOf_h4 (p : List ℚ) (v : ℚ) :
    (tierMapOf p).h4 = some v ↔
      (p[3]? = some v ∧ ∃ a, p[0]? = some a ∧ v < a * (95 / 100)) := by
  unfold tierMapOf
  dsimp only
  cases h0 : p[0]? with
  | none => cases h1 : p[3]? <;> simp [h0, h1]
  | some a =>
    cases h1 : p[3]? with
    | none => simp [h1]
    | some b =>
      dsimp only
      by_cases hb : b < a * (95 / 100)
      · rw [if_pos hb]
        simp only [Option.some.injEq]
        constructor
        · rintro rfl
          exact ⟨rfl, a, rfl, hb⟩
        · rintro ⟨hv, _⟩
          exact hv
      · rw [if_neg hb]
        constructor
        · rintro h
          exact absurd h (by simp)
        · rintro ⟨hv, a', ha', hlt⟩
          rw [Option.some.injEq] at hv ha'
          subst hv
          subst ha'
          exact absurd hlt hb

/-- The candidate list is strictly descending. -/
theorem potential_strictDesc (sizes : List ℚ) (body : ℚ) :
    (potentialHeadingSizes sizes body).Pairwise (fun a b => b < a) := by
  have hsorted : List.Sorted descQ (potentialHeadingSizes sizes body) :=
    List.sorted_insertionSort descQ _
  have hnodup : (potentialHeadingSizes sizes body).Nodup := by
    unfold potentialHeadingSizes
    exact ((List.perm_insertionSort descQ _).nodup_iff).mpr (List.nodup_dedup _)
  have hand := List.Pairwise.and hsorted hnodup
  exact hand.imp (fun h => lt_of_le_of_ne h.1 (fun he => h.2 he.symm))

/-- In a strictly descending list, a later element is smaller. -/
theorem desc_key (p : List ℚ) (hd : p.Pairwise (fun a b => b < a)) :
    ∀ (i j : ℕ) (x y : ℚ), i < j → p[i]? = some x → p[j]? = some y → y < x := by
  intro i j x y hij hx hy
  rw [List.getElem?_eq_some] at hx hy
  obtain ⟨hi, rfl⟩ := hx
  obtain ⟨hj, rfl⟩ := hy
  exact @List.Sorted.rel_get_of_lt ℚ (fun a b => b < a) p hd ⟨i, hi⟩ ⟨j, hj⟩ hij

/-- The tier values of the map of a strictly descending candidate list are
strictly descending across every pair of present levels. -/
theorem tierMapOf_desc (p : List ℚ) (hd : p.Pairwise (fun a b => b < a)) :
    (∀ v1 v2, (tierMapOf p).h1 = some v1 → (tierMapOf p).h2 = some v2 → v2 < v1) ∧
    (∀ v1 v3, (tierMapOf p).h1 = some v1 → (tierMapOf p).h3 = some v3 → v3 < v1) ∧
    (∀ v1 v4, (tierMapOf p).h1 = some v1 → (tierMapOf p).h4 = some v4 → v4 < v1) ∧
    (∀ v2 v3, (tierMapOf p).h2 = some v2 → (tierMapOf p).h3 = some v3 → v3 < v2) ∧
    (∀ v2 v4, (tierMapOf p).h2 = some v2 → (tierMapOf p).h4 = some v4 → v4 < v2) ∧
    (∀ v3 v4, (tierMapOf p).h3 = some v3 → (tierMapOf p).h4 = some v4 → v4 < v3) := by
  have k1 : ∀ x, (tierMapOf p).h1 = some x → p[0]? = some x := by
    intro x hx
    rwa [show (tierMapOf p).h1 = p.head? from rfl, List.head?_eq_getElem?] at hx
  have k2 : ∀ x, (tierMapOf p).h2 = some x → p[1]? = some x :=
    fun x hx => ((tierMapOf_h2 p x).mp hx).1
  have k3 : ∀ x, (tierMapOf p).h3 = some x → p[2]? = some x :=
    fun x hx => ((tierMapOf_h3 p x).mp hx).1
  have k4 : ∀ x, (tierMapOf p).h4 = some x → p[3]? = some x :=
    fun x hx => ((tierMapOf_h4 p x).mp hx).1
  refine ⟨?_, ?_, ?_, ?_, ?_, ?_⟩
  · intro v1 v2 h1 h2
    exact desc_key p hd 0 1 v1 v2 (by omega) (k1 v1 h1) (k2 v2 h2)
  · intro v1 v3 h1 h3
    exact desc_key p hd 0 2 v1 v3 (by omega) (k1 v1 h1) (k3 v3 h3)
  · intro v1 v4 h1 h4
    exact desc_key p hd 0 3 v1 v4 (by omega) (k1 v1 h1) (k4 v4 h4)
  · intro v2 v3 h2 h3
    exact desc_key p hd 1 2 v2 v3 (by omega) (k2 v2 h2) (k3 v3 h3)
  · intro v2 v4 h2 h4
    exact desc_key p hd 1 3 v2 v4 (by omega) (k2 v2 h2) (k4 v4 h4)
  · intro v3 v4 h3 h4
    exact desc_key p hd 2 3 v3 v4 (by omega) (k3 v3 h3) (k4 v4 h4)

/-- C3.  When the candidate list is non-empty: H1 is its first and largest
element; for k = 2, 3, 4 the tier Hk is present iff the k-th candidate
exists and is below 0.95 times the largest candidate (each gap check against
H1); present tier values are strictly descending across all level pairs; and
the chain need not stop early — on the concrete document `c3Lines` H2 is
absent while H3 is present. -/
theorem tier_structure (lines : List Line)
    (hp : potentialHeadingSizes (allFontSizes lines)
      (bodyTextSize (allFontSizes lines)) ≠ []) :
    (∃ a,
      (headingSizeMapOf (allFontSizes lines) (bodyTextSize (allFontSizes lines))).h1 =
        some a ∧
      (potentialHeadingSizes (allFontSizes lines) (bodyTextSize (allFontSizes lines)))[0]? =
        some a ∧
      ∀ x ∈ potentialHeadingSizes (allFontSizes lines) (bodyTextSize (allFontSizes lines)),
        x ≤ a) ∧
    (∀ v,
      (headingSizeMapOf (allFontSizes lines) (bodyTextSize (allFontSizes lines))).h2 =
          some v ↔
        ((potentialHeadingSizes (allFontSizes lines) (bodyTextSize (allFontSizes lines)))[1]? =
            some v ∧
          ∃ a,
            (potentialHeadingSizes (allFontSizes lines)
                (bodyTextSize (allFontSizes lines)))[0]? = some a ∧
            v < a * (95 / 100))) ∧
    (∀ v,
      (headingSizeMapOf (allFontSizes lines) (bodyTextSize (allFontSizes lines))).h3 =
          some v ↔
        ((potentialHeadingSizes (allFontSizes lines) (bodyTextSize (allFontSizes lines)))[2]? =
            some v ∧
          ∃ a,
            (potentialHeadingSizes (allFontSizes lines)
                (bodyTextSize (allFontSizes lines)))[0]? = some a ∧
            v < a * (95 / 100))) ∧
    (∀ v,
      (headingSizeMapOf (allFontSizes lines) (bodyTextSize (allFontSizes lines))).h4 =
          some v ↔
        ((potentialHeadingSizes (allFontSizes lines) (bodyTextSize (allFontSizes lines)))[3]? =
            some v ∧
          ∃ a,
            (potentialHeadingSizes (allFontSizes lines)
                (bodyTextSize (allFontSizes lines)))[0]? = some a ∧
            v < a * (95 / 100))) ∧
    (∀ vi vj,
      ((headingSizeMapOf (allFontSizes lines) (bodyTextSize (allFontSizes lines))).h1 =
          some vi ∧
        ((headingSizeMapOf (allFontSizes lines) (bodyTextSize (allFontSizes lines))).h2 =
            some vj ∨
          (headingSizeMapOf (allFontSizes lines) (bodyTextSize (allFontSizes lines))).h3 =
            some vj ∨
          (headingSizeMapOf (allFontSizes lines) (bodyTextSize (allFontSizes lines))).h4 =
            some vj) ∨
        (headingSizeMapOf (allFontSizes lines) (bodyTextSize (allFontSizes lines))).h2 =
          some vi ∧
        ((headingSizeMapOf (allFontSizes lines) (bodyTextSize (allFontSizes lines))).h3 =
            some vj ∨
          (headingSizeMapOf (allFontSizes lines) (bodyTextSize (allFontSizes lines))).h4 =
            some vj) ∨
        (headingSizeMapOf (allFontSizes lines) (bodyTextSize (allFontSizes lines))).h3 =
          some vi ∧
        (headingSizeMapOf (allFontSizes lines) (bodyTextSize (allFontSizes lines))).h4 =
          some vj) →
      vj < vi) ∧
    ((headingSizeMapOf (allFontSizes c3Lines) (bodyTextSize (allFontSizes c3Lines))).h2 =
        none ∧
      ((headingSizeMapOf (allFontSizes c3Lines)
          (bodyTextSize (allFontSizes c3Lines))).h3).isSome = true) := by
  have hdesc := potential_strictDesc (allFontSizes lines) (bodyTextSize (allFontSizes lines))
  have hd := tierMapOf_desc _ hdesc
  refine ⟨?_, ?_, ?_, ?_, ?_, ?_⟩
  · obtain ⟨a, tail, hPeq⟩ := List.exists_cons_of_ne_nil hp
    refine ⟨a, ?_, ?_, ?_⟩
    · show (potentialHeadingSizes (allFontSizes lines)
        (bodyTextSize (allFontSizes lines))).head? = some a
      rw [hPeq]
      rfl
    · rw [hPeq]
      simp
    · intro x hx
      rw [hPeq] at hx hdesc
      rw [List.pairwise_cons] at hdesc
      rcases List.mem_cons.mp hx with rfl | hx
      · exact le_refl x
      · exact le_of_lt (hdesc.1 x hx)
  · intro v
    exact tierMapOf_h2 _ v
  · intro v
    exact tierMapOf_h3 _ v
  · intro v
    exact tierMapOf_h4 _ v
  · rintro vi vj (⟨h1, h2 | h3 | h4⟩ | ⟨h2, h3 | h4⟩ | ⟨h3, h4⟩)
    · exact hd.1 vi vj h1 h2
    · exact hd.2.1 vi vj h1 h3
    · exact hd.2.2.1 vi vj h1 h4
    · exact hd.2.2.2.1 vi vj h2 h3
    · exact hd.2.2.2.2.1 vi vj h2 h4
    · exact hd.2.2.2.2.2 vi vj h3 h4
  · exact ⟨by with_unfolding_all decide, by with_unfolding_all decide⟩

/-- C3 witness: on `c3Lines` the candidate list is [100, 96, 94], and the
theorem applies; in particular H1 = 100, H2 is absent, H3 = 94. -/
theorem tier_structure_witness :
    (headingSizeMapOf (allFontSizes c3Lines) (bodyTextSize (allFontSizes c3Lines))).h1 =
        some 100 ∧
      (headingSizeMapOf (allFontSizes c3Lines) (bodyTextSize (allFontSizes c3Lines))).h2 =
        none ∧
      (headingSizeMapOf (allFontSizes c3Lines) (bodyTextSize (allFontSizes c3Lines))).h3 =
        some 94 := by
  have h := tier_structure c3Lines (by with_unfolding_all decide)
  refine ⟨?_, h.2.2.2.2.2.1, ?_⟩
  · obtain ⟨a, ha, hget, _⟩ := h.1
    have : a = 100 := by
      rw [show (potentialHeadingSizes (allFontSizes c3Lines)
          (bodyTextSize (allFontSizes c3Lines)))[0]? = some 100 from
        by with_unfolding_all decide] at hget
      exact (Option.some.injEq _ _ ▸ hget).symm
    rw [← this]
    exact ha
  · exact (h.2.2.1 94).mpr (by with_unfolding_all decide)

/-- C4.  When the title is still the default and the sorted outline is
non-empty: if a first H1 entry exists (in reading order, via `find?`), its
text becomes the title and exactly the entries sharing that text and that
page are removed; if no H1 entry exists, title and outline are unchanged. -/
theorem fallback_promotion (lines : List Line) (meta : Option String)
    (nfkc : String → String) (fph : ℚ)
    (ht : preTitle lines meta nfkc fph = noTitle)
    (hne : sortedOutline lines meta nfkc fph ≠ []) :
    (∀ e, (sortedOutline lines meta nfkc fph).find?
        (fun x => x.level == HLevel.H1) = some e →
      (identify_headings lines meta nfkc fph).title = e.text ∧
      (identify_headings lines meta nfkc fph).outline =
        (sortedOutline lines meta nfkc fph).filter
          (fun x => !(x.text == e.text && x.page == e.page)) ∧
      ∀ x ∈ (identify_headings lines meta nfkc fph).outline,
        ¬(x.text = e.text ∧ x.page = e.page)) ∧
    ((sortedOutline lines meta nfkc fph).find?
        (fun x => x.level == HLevel.H1) = none →
      (identify_headings lines meta nfkc fph).title = noTitle ∧
      (identify_headings lines meta nfkc fph).outline =
        sortedOutline lines meta nfkc fph) := by
  constructor
  · intro e hf
    have houtline : (identify_headings lines meta nfkc fph).outline =
        (sortedOutline lines meta nfkc fph).filter
          (fun x => !(x.text == e.text && x.page == e.page)) := by
      show (applyFallback (preTitle lines meta nfkc fph)
        (sortedOutline lines meta nfkc fph)).2 = _
      unfold applyFallback
      rw [if_pos ⟨ht, hne⟩, hf]
    refine ⟨?_, houtline, ?_⟩
    · show (applyFallback (preTitle lines meta nfkc fph)
        (sortedOutline lines meta nfkc fph)).1 = e.text
      unfold applyFallback
      rw [if_pos ⟨ht, hne⟩, hf]
    · intro x hx hconj
      rw [houtline] at hx
      have h2 := (List.mem_filter.mp hx).2
      rw [Bool.not_eq_true'] at h2
      rw [hconj.1, hconj.2] at h2
      simp at h2
  · intro hf
    constructor
    · show (applyFallback (preTitle lines meta nfkc fph)
        (sortedOutline lines meta nfkc fph)).1 = noTitle
      unfold applyFallback
      rw [if_pos ⟨ht, hne⟩, hf]
      exact ht
    · show (applyFallback (preTitle lines meta nfkc fph)
        (sortedOutline lines meta nfkc fph)).2 = _
      unfold applyFallback
      rw [if_pos ⟨ht, hne⟩, hf]

/-- C4 witness: on `c4Lines` the fallback promotes the single H1 "Overview"
from page 2; the title becomes "Overview" and the outline empties. -/
theorem fallback_promotion_witness :
    (identify_headings c4Lines none id 100).title = "Overview" ∧
    (identify_headings c4Lines none id 100).outline = [] := by
  have h := (fallback_promotion c4Lines none id 100 (by with_unfolding_all decide)
    (by with_unfolding_all decide)).1 ⟨HLevel.H1, "Overview", 2, 120⟩
    (by with_unfolding_all decide)
  exact ⟨h.1, by with_unfolding_all decide⟩

/-- Nonempty lists have a non-empty first-occurrence deduplication. -/
theorem firstDedup_ne_nil (l : List ℚ) (h : l ≠ []) : firstDedup l ≠ [] := by
  obtain ⟨a, t, rfl⟩ := List.exists_cons_of_ne_nil h
  unfold firstDedup
  have hstep : ∀ (t : List ℚ) (acc : List ℚ), acc ≠ [] →
      t.foldl (fun acc x => if x ∈ acc then acc else x :: acc) acc ≠ [] := by
    intro t
    induction t with
    | nil => intro acc hacc; exact hacc
    | cons b bs ih =>
      intro acc hacc
      rw [List.foldl_cons]
      by_cases hb : b ∈ acc
      · rw [if_pos hb]
        exact ih acc hacc
      · rw [if_neg hb]
        exact ih _ (List.cons_ne_nil b acc)
  rw [List.foldl_cons]
  intro hrev
  have hnil := List.reverse_eq_nil_iff.mp hrev
  have h0 : (if a ∈ ([] : List ℚ) then ([] : List ℚ) else [a]) = [a] := by simp
  rw [h0] at hnil
  exact hstep t [a] (List.cons_ne_nil a []) hnil

/-- Nonempty lists have a mode. -/
theorem modeOf_isSome (l : List ℚ) (h : l ≠ []) : ∃ m, modeOf? l = some m := by
  have hne := firstDedup_ne_nil l h
  obtain ⟨x, xs, hfd⟩ := List.exists_cons_of_ne_nil hne
  refine ⟨xs.foldl (fun best y => if countQ l best < countQ l y then y else best) x, ?_⟩
  unfold modeOf?
  rw [hfd]

/-- C6.  For a document with collected sizes, the body size equals the mode
of the rounded sizes when that mode is at least the median, and the median
otherwise. -/
theorem body_size_rule (lines : List Line) (h : allFontSizes lines ≠ []) :
    ∃ m, modeOf? ((allFontSizes lines).map round1) = some m ∧
      bodyTextSize (allFontSizes lines) =
        (if medianQ (allFontSizes lines) ≤ m then m
         else medianQ (allFontSizes lines)) := by
  have hne : (allFontSizes lines).map round1 ≠ [] := by
    intro hx
    exact h (List.map_eq_nil_iff.mp hx)
  obtain ⟨m, hm⟩ := modeOf_isSome _ hne
  refine ⟨m, hm, ?_⟩
  unfold bodyTextSize
  rw [hm]
  show max (medianQ (allFontSizes lines)) m = _
  rw [max_def]

/-- C6 witness: on `c6Lines` the sizes are [10], the mode is 10 ≥ median 10,
and the body size is 10. -/
theorem body_size_rule_witness :
    (∃ m, modeOf? ((allFontSizes c6Lines).map round1) = some m ∧
      bodyTextSize (allFontSizes c6Lines) =
        (if medianQ (allFontSizes c6Lines) ≤ m then m
         else medianQ (allFontSizes c6Lines))) ∧
    bodyTextSize (allFontSizes c6Lines) = 10 :=
  ⟨body_size_rule c6Lines (by with_unfolding_all decide), by with_unfolding_all decide⟩

/-- C8.  A non-empty line list in which every span size is at or below the
noise floor yields the metadata-only title with an empty outline; the title
is the normalised trimmed metadata title when it is non-empty after trimming
with at least 3 alphanumeric characters, and the default otherwise. -/
theorem no_sizes_outcome (lines : List Line) (meta : Option String)
    (nfkc : String → String) (fph : ℚ) (hne : lines ≠ [])
    (hsmall : ∀ l ∈ lines, ∀ sp ∈ l.spans, sp.size ≤ 6) :
    identify_headings lines meta nfkc fph = ⟨initialTitle meta nfkc, []⟩ ∧
    (∀ t, meta = some t → t.trim ≠ "" → 3 ≤ alnumCount t →
      initialTitle meta nfkc = nfkc t.trim) ∧
    (meta = none → initialTitle meta nfkc = noTitle) ∧
    (∀ t, meta = some t → (t.trim = "" ∨ alnumCount t < 3) →
      initialTitle meta nfkc = noTitle) := by
  have hsz : allFontSizes lines = [] := by
    unfold allFontSizes
    rw [List.filter_eq_nil_iff]
    intro a ha
    rw [List.mem_flatMap] at ha
    obtain ⟨l, hl, ha⟩ := ha
    rw [List.mem_map] at ha
    obtain ⟨sp, hsp, rfl⟩ := ha
    simp only [decide_eq_true_eq, not_lt]
    exact hsmall l hl sp hsp
  refine ⟨?_, ?_, ?_, ?_⟩
  · have hpre : preTitle lines meta nfkc fph = initialTitle meta nfkc := by
      unfold preTitle
      rw [if_neg hne, if_pos hsz]
    have hraw : assembledRaw lines meta nfkc fph = [] := by
      unfold assembledRaw
      rw [if_neg hne, if_pos hsz]
    have hsort : sortedOutline lines meta nfkc fph = [] := by
      unfold sortedOutline
      rw [hraw]
      rfl
    show (⟨(applyFallback (preTitle lines meta nfkc fph)
        (sortedOutline lines meta nfkc fph)).1,
      (applyFallback (preTitle lines meta nfkc fph)
        (sortedOutline lines meta nfkc fph)).2⟩ : DocumentOutline) = _
    rw [hpre, hsort]
    unfold applyFallback
    rw [if_neg (fun hc => hc.2 rfl)]
  · intro t hmt htrim halnum
    subst hmt
    have hok : metaTitleOk t = true := by
      unfold metaTitleOk
      rw [Bool.and_eq_true, Bool.and_eq_true]
      refine ⟨⟨?_, ?_⟩, ?_⟩
      · rw [bne_iff_ne, ne_eq]
        intro hteq
        apply htrim
        rw [hteq]
        with_unfolding_all decide
      · rwa [bne_iff_ne, ne_eq]
      · exact decide_eq_true halnum
    show (if metaTitleOk t = true then nfkc t.trim else noTitle) = nfkc t.trim
    rw [if_pos hok]
  · intro hmn
    subst hmn
    rfl
  · intro t hmt hbad
    subst hmt
    have hok : ¬metaTitleOk t = true := by
      unfold metaTitleOk
      rw [Bool.and_eq_true, Bool.and_eq_true]
      rintro ⟨⟨_, htr⟩, hal⟩
      rcases hbad with hb | hb
      · rw [bne_iff_ne, ne_eq] at htr
        exact htr hb
      · rw [decide_eq_true_eq] at hal
        omega
    show (if metaTitleOk t = true then nfkc t.trim else noTitle) = noTitle
    rw [if_neg hok]

/-- C8 witness: a document whose only span has size 5 and metadata title
"My Document" yields that title and an empty outline. -/
theorem no_sizes_outcome_witness :
    identify_headings c8Lines (some "My Document") id 100 =
      ⟨"My Document", []⟩ := by
  have h := no_sizes_outcome c8Lines (some "My Document") id 100
    (by with_unfolding_all decide) (by with_unfolding_all decide)
  rw [h.1]
  with_unfolding_all decide

/-- C10.  Two typography profiles agreeing on H1, H2 and H3 but differing in
H4 produce identical scores, identical level assignments, an identical raw
outline and an identical final (sorted, fallback-reconciled) result. -/
theorem h4_unused (m1 m2 : HeadingSizeMap) (e1 : m1.h1 = m2.h1)
    (e2 : m1.h2 = m2.h2) (e3 : m1.h3 = m2.h3) :
    (∀ (line : Line) (body : ℚ),
      compute_heading_score line m1 body = compute_heading_score line m2 body) ∧
    (∀ (avg : ℚ) (score : ℕ), levelFor m1 avg score = levelFor m2 avg score) ∧
    (∀ (lines : List Line) (body : ℚ) (t : String),
      assembleRaw lines m1 body t = assembleRaw lines m2 body t) ∧
    (∀ (lines : List Line) (body : ℚ) (t : String),
      applyFallback t (sortEntries (assembleRaw lines m1 body t)) =
        applyFallback t (sortEntries (assembleRaw lines m2 body t))) := by
  obtain ⟨a1, b1, c1, d1⟩ := m1
  obtain ⟨a2, b2, c2, d2⟩ := m2
  dsimp only at e1 e2 e3
  subst e1
  subst e2
  subst e3
  exact ⟨fun _ _ => rfl, fun _ _ => rfl, fun _ _ _ => rfl, fun _ _ _ => rfl⟩

/-- C10 witness: two concrete maps differing only in H4 give the same score
and the same assembled outline on a concrete document. -/
theorem h4_unused_witness :
    compute_heading_score c10Line ⟨some 20, some 15, none, some 9⟩ 10 =
      compute_heading_score c10Line ⟨some 20, some 15, none, none⟩ 10 ∧
    assembleRaw [c10Line] ⟨some 20, some 15, none, some 9⟩ 10 "T" =
      assembleRaw [c10Line] ⟨some 20, some 15, none, none⟩ 10 "T" := by
  have h := h4_unused ⟨some 20, some 15, none, some 9⟩ ⟨some 20, some 15, none, none⟩
    rfl rfl rfl
  exact ⟨h.1 c10Line 10, h.2.2.1 [c10Line] 10 "T"⟩

end PdfOutline
